import Mathlib

/-!
Verification development for the `do-spaces-export` tool: a resumable bulk
downloader for an S3-compatible bucket.  The Python source
(`do_spaces_export/export.py`, `fetch.py`, `__init__.py`) is shallowly
embedded below:

* the local filesystem's regular files are a `Finset String` of paths;
* the on-disk ledger file `download_log.json` is a `LedgerContent`
  (missing, unreadable/corrupt, or a valid set of keys);
* the network is a success oracle `dlOk : String → Bool` telling whether
  downloading a given key succeeds;
* the per-file loop body of `download_objects` becomes the pure step
  function `processFile`, and the loop a `List.foldl`;
* each processed file record also appends its classification to a trace,
  mirroring the per-file log line emitted by the source.
-/

namespace DoSpacesExport

/-- An object record as returned by the listing API; only `Key` is used
by the core logic (`__init__.py`, `export.py`). -/
structure ObjectRecord where
  key : String
  deriving DecidableEq, Repr

/-- The four classifications assigned by `download_objects`
(`export.py` lines 98-138). -/
inductive Outcome where
  | downloaded
  | skipped_logged
  | skipped_exists
  | failed
  deriving DecidableEq, Repr

/-- The run-statistics dict initialised at `export.py` lines 91-96. -/
structure Stats where
  downloaded : Nat
  skipped_exists : Nat
  skipped_logged : Nat
  failed : Nat
  deriving DecidableEq, Repr

/-- Abstract state of the on-disk ledger file
`<local_path>/download_log.json`: the file may be absent, unreadable or
unparsable (any exception on open/`json.load`), or a valid JSON document
whose `downloaded_files` member denotes a set of keys. -/
inductive LedgerContent where
  | missing
  | corrupt
  | valid (keys : Finset String)
  deriving DecidableEq

/-- Embedding of `get_download_log` (`export.py` lines 14-29): reads the
ledger file if present and returns the stored key set; a missing file or
any read/parse failure yields the empty set. -/
def get_download_log : LedgerContent → Finset String
  | LedgerContent.valid keys => keys
  | LedgerContent.missing => ∅
  | LedgerContent.corrupt => ∅

/-- Whether `get_download_log` emits its "Could not read download log"
warning (`export.py` line 28): exactly on a read/parse failure. -/
def download_log_warns : LedgerContent → Bool
  | LedgerContent.corrupt => true
  | _ => false

/-- Embedding of `save_download_log` (`export.py` lines 32-43): overwrites
the ledger file with the full current set. -/
def save_download_log (downloaded_files : Finset String) : LedgerContent :=
  LedgerContent.valid downloaded_files

/-- Embedding of `add_to_download_log` (`export.py` lines 45-54): inserts
the key into the in-memory set and immediately saves; returns the new
in-memory set and the new on-disk ledger content. -/
def add_to_download_log (file_key : String) (downloaded_files : Finset String) :
    Finset String × LedgerContent :=
  let keys := insert file_key downloaded_files
  (keys, save_download_log keys)

/-- The local target path `f"{local_path}/{file_key}"` used at
`export.py` line 100. -/
def localPath (root file_key : String) : String :=
  root ++ "/" ++ file_key

/-- State threaded through the download loop of `download_objects`:
the set of existing regular-file paths, the on-disk ledger file, the
in-memory ledger set `downloaded_files`, the statistics dict, and the
trace of per-file classifications in processing order. -/
structure DLState where
  disk : Finset String
  ledgerDisk : LedgerContent
  ledgerMem : Finset String
  stats : Stats
  trace : List (String × Outcome)
  deriving DecidableEq

/-- Embedding of one iteration of the loop in `download_objects`
(`export.py` lines 98-138): skip when the key is already logged; else
skip-and-log when the target path exists on disk; else attempt the
download (`open` creates the file, a failure removes it again). -/
def processFile (root : String) (dlOk : String → Bool) (s : DLState)
    (f : ObjectRecord) : DLState :=
  let file_key := f.key
  let local_filepath := localPath root file_key
  if file_key ∈ s.ledgerMem then
    { s with
      stats := { s.stats with skipped_logged := s.stats.skipped_logged + 1 },
      trace := s.trace ++ [(file_key, Outcome.skipped_logged)] }
  else if local_filepath ∈ s.disk then
    let upd := add_to_download_log file_key s.ledgerMem
    { s with
      ledgerMem := upd.1, ledgerDisk := upd.2,
      stats := { s.stats with skipped_exists := s.stats.skipped_exists + 1 },
      trace := s.trace ++ [(file_key, Outcome.skipped_exists)] }
  else if dlOk file_key then
    let upd := add_to_download_log file_key s.ledgerMem
    { s with
      disk := insert local_filepath s.disk,
      ledgerMem := upd.1, ledgerDisk := upd.2,
      stats := { s.stats with downloaded := s.stats.downloaded + 1 },
      trace := s.trace ++ [(file_key, Outcome.downloaded)] }
  else
    { s with
      disk := (insert local_filepath s.disk).erase local_filepath,
      stats := { s.stats with failed := s.stats.failed + 1 },
      trace := s.trace ++ [(file_key, Outcome.failed)] }

/-- Embedding of `download_objects` (`export.py` lines 73-145): loads the
ledger, initialises the statistics to zero, and folds the per-file step
over the file records in listing order. -/
def download_objects (root : String) (dlOk : String → Bool)
    (files : List ObjectRecord) (disk0 : Finset String)
    (ledger0 : LedgerContent) : DLState :=
  files.foldl (processFile root dlOk)
    { disk := disk0, ledgerDisk := ledger0,
      ledgerMem := get_download_log ledger0,
      stats := { downloaded := 0, skipped_exists := 0,
                 skipped_logged := 0, failed := 0 },
      trace := [] }

/-- One page returned by `client.list_objects_v2` (`fetch.py`): its
`Contents` records (an absent `Contents` member is the empty list) and
its `IsTruncated` flag. -/
structure Page where
  contents : List ObjectRecord
  isTruncated : Bool
  deriving DecidableEq, Repr

/-- One response of the storage client to a `list_objects_v2` request:
either a page, or a transport/service error raised by the client. -/
inductive ListResp where
  | ok (page : Page)
  | transportError
  deriving DecidableEq, Repr

/-- Embedding of the `while True` loop of `list_objects_in_bucket`
(`fetch.py` lines 12-39).  The client's successive responses (first the
token-less request, then one per continuation token) are given as a
list; the loop extends the accumulator with each page's records and
stops at the first non-truncated page.  An error raised by the client
propagates (there is no handler in `fetch.py`). -/
def list_objects_loop : List ListResp → List ObjectRecord →
    Except Unit (List ObjectRecord)
  | [], all_objects => Except.ok all_objects
  | ListResp.transportError :: _, _ => Except.error ()
  | ListResp.ok page :: rest, all_objects =>
    let all_objects := all_objects ++ page.contents
    if page.isTruncated then list_objects_loop rest all_objects
    else Except.ok all_objects

/-- Embedding of `list_objects_in_bucket` (`fetch.py` lines 5-40):
runs the pagination loop starting from an empty accumulator. -/
def list_objects_in_bucket (responses : List ListResp) :
    Except Unit (List ObjectRecord) :=
  list_objects_loop responses []

/-- The last character of a key, as accessed by `file["Key"][-1]` in
`__init__.py` lines 20-21; `none` when the key is empty (in which case
the Python subscript raises `IndexError`). -/
def lastChar (s : String) : Option Char :=
  s.data.getLast?

/-- Whether a record is a directory marker, per the test
`file["Key"][-1] == "/"` (`__init__.py` line 21); errors on an empty
key, as the Python subscript does. -/
def classifyIsDir (r : ObjectRecord) : Except Unit Bool :=
  match lastChar r.key with
  | none => Except.error ()
  | some c => Except.ok (c == '/')

/-- One of the two list comprehensions at `__init__.py` lines 20-21:
keeps the records whose directory-marker test equals `wantDir`,
propagating the `IndexError` on an empty key. -/
def selectRecords (wantDir : Bool) : List ObjectRecord →
    Except Unit (List ObjectRecord)
  | [] => Except.ok []
  | r :: rest => do
    let b ← classifyIsDir r
    let tail ← selectRecords wantDir rest
    pure (if b = wantDir then r :: tail else tail)

/-- The files/directories partition performed by `init_script`
(`__init__.py` lines 20-21): first the `files` comprehension, then the
`directories` comprehension. -/
def partitionRecords (objects : List ObjectRecord) :
    Except Unit (List ObjectRecord × List ObjectRecord) := do
  let files ← selectRecords false objects
  let dirs ← selectRecords true objects
  pure (files, dirs)

/-- The directory paths that `os.makedirs(p, exist_ok=True)` brings into
existence: every ancestor of `p` along `/`-separated segments, and `p`
itself. -/
def makedirsPaths (p : String) : List String :=
  let parts := p.splitOn "/"
  ((List.range (parts.length - 1)).map
    (fun i => String.intercalate "/" (parts.take (i + 1)))) ++ [p]

/-- Effect of `os.makedirs(p, exist_ok=True)` on the set of existing
directories: adds `p` and its missing ancestors, never failing on ones
already present. -/
def makedirs (fs : Finset String) (p : String) : Finset String :=
  fs ∪ (makedirsPaths p).toFinset

/-- The loop of `create_directories` (`export.py` lines 64-67) over the
directory markers; `mkdirErr` tells which paths make `os.makedirs`
raise an unexpected filesystem error, which propagates. -/
def create_directories_go (root : String) (mkdirErr : String → Bool) :
    List ObjectRecord → Finset String → Except Unit (Finset String)
  | [], fs => Except.ok fs
  | d :: rest, fs =>
    let directory_path := root ++ "/" ++ d.key
    if mkdirErr directory_path then Except.error ()
    else create_directories_go root mkdirErr rest (makedirs fs directory_path)

/-- Embedding of `create_directories` (`export.py` lines 57-70): ensures
the export root exists, then creates `root/Key` for every directory
marker; any filesystem error is re-raised (`raise e`), not swallowed. -/
def create_directories (directories : List ObjectRecord) (root : String)
    (mkdirErr : String → Bool) (fs : Finset String) :
    Except Unit (Finset String) :=
  if mkdirErr root then Except.error ()
  else create_directories_go root mkdirErr directories (makedirs fs root)

/-- The object keys reported as `downloaded` in a trace, in order. -/
def downloadedKeyList (tr : List (String × Outcome)) : List String :=
  tr.filterMap (fun e => if e.2 = Outcome.downloaded then some e.1 else none)

/-- The set of object keys reported as `downloaded` in a trace. -/
def downloadedKeys (tr : List (String × Outcome)) : Finset String :=
  (downloadedKeyList tr).toFinset

/-- Whether a record is a directory marker: its key's last character is
the path separator (false is never returned for an empty key by the
source; this function is only consulted on nonempty keys). -/
def isDirRecord (r : ObjectRecord) : Bool :=
  match lastChar r.key with
  | some c => c == '/'
  | none => false

/-- Total of the four statistics counters. -/
def statsTotal (st : Stats) : Nat :=
  st.downloaded + st.skipped_logged + st.skipped_exists + st.failed

theorem localPath_inj {root k1 k2 : String}
    (h : localPath root k1 = localPath root k2) : k1 = k2 := by
  have h2 := congrArg String.data h
  simp only [localPath, String.data_append] at h2
  exact String.ext (List.append_cancel_left h2)

theorem processFile_logged {root : String} {dlOk : String → Bool}
    {s : DLState} {f : ObjectRecord} (h : f.key ∈ s.ledgerMem) :
    processFile root dlOk s f =
    { s with
      stats := { s.stats with skipped_logged := s.stats.skipped_logged + 1 },
      trace := s.trace ++ [(f.key, Outcome.skipped_logged)] } := by
  simp [processFile, h]

theorem processFile_exists {root : String} {dlOk : String → Bool}
    {s : DLState} {f : ObjectRecord} (h1 : f.key ∉ s.ledgerMem)
    (h2 : localPath root f.key ∈ s.disk) :
    processFile root dlOk s f =
    { s with
      ledgerMem := insert f.key s.ledgerMem,
      ledgerDisk := LedgerContent.valid (insert f.key s.ledgerMem),
      stats := { s.stats with skipped_exists := s.stats.skipped_exists + 1 },
      trace := s.trace ++ [(f.key, Outcome.skipped_exists)] } := by
  simp [processFile, h1, h2, add_to_download_log, save_download_log]

theorem processFile_download {root : String} {dlOk : String → Bool}
    {s : DLState} {f : ObjectRecord} (h1 : f.key ∉ s.ledgerMem)
    (h2 : localPath root f.key ∉ s.disk) (h3 : dlOk f.key = true) :
    processFile root dlOk s f =
    { s with
      disk := insert (localPath root f.key) s.disk,
      ledgerMem := insert f.key s.ledgerMem,
      ledgerDisk := LedgerContent.valid (insert f.key s.ledgerMem),
      stats := { s.stats with downloaded := s.stats.downloaded + 1 },
      trace := s.trace ++ [(f.key, Outcome.downloaded)] } := by
  simp [processFile, h1, h2, h3, add_to_download_log, save_download_log]

theorem processFile_failed {root : String} {dlOk : String → Bool}
    {s : DLState} {f : ObjectRecord} (h1 : f.key ∉ s.ledgerMem)
    (h2 : localPath root f.key ∉ s.disk) (h3 : dlOk f.key = false) :
    processFile root dlOk s f =
    { s with
      stats := { s.stats with failed := s.stats.failed + 1 },
      trace := s.trace ++ [(f.key, Outcome.failed)] } := by
  simp [processFile, h1, h2, h3, Finset.erase_insert h2]

theorem processFile_trace {root : String} {dlOk : String → Bool}
    (s : DLState) (f : ObjectRecord) :
    ∃ o : Outcome, (processFile root dlOk s f).trace =
      s.trace ++ [(f.key, o)] := by
  by_cases h1 : f.key ∈ s.ledgerMem
  · exact ⟨_, by rw [processFile_logged h1]⟩
  by_cases h2 : localPath root f.key ∈ s.disk
  · exact ⟨_, by rw [processFile_exists h1 h2]⟩
  by_cases h3 : dlOk f.key = true
  · exact ⟨_, by rw [processFile_download h1 h2 h3]⟩
  · exact ⟨_, by rw [processFile_failed h1 h2 (by simpa using h3)]⟩

theorem processFile_statsTotal {root : String} {dlOk : String → Bool}
    (s : DLState) (f : ObjectRecord) :
    statsTotal (processFile root dlOk s f).stats = statsTotal s.stats + 1 := by
  by_cases h1 : f.key ∈ s.ledgerMem
  · rw [processFile_logged h1]; simp [statsTotal]; omega
  by_cases h2 : localPath root f.key ∈ s.disk
  · rw [processFile_exists h1 h2]; simp [statsTotal]; omega
  by_cases h3 : dlOk f.key = true
  · rw [processFile_download h1 h2 h3]; simp [statsTotal]; omega
  · rw [processFile_failed h1 h2 (by simpa using h3)]; simp [statsTotal]; omega

theorem foldl_statsTotal (root : String) (dlOk : String → Bool) :
    ∀ (l : List ObjectRecord) (s : DLState),
    statsTotal (l.foldl (processFile root dlOk) s).stats =
      statsTotal s.stats + l.length
  | [], s => by simp
  | f :: rest, s => by
    rw [List.foldl_cons, foldl_statsTotal root dlOk rest,
      processFile_statsTotal]
    simp; omega

theorem foldl_trace_keys (root : String) (dlOk : String → Bool) :
    ∀ (l : List ObjectRecord) (s : DLState),
    (l.foldl (processFile root dlOk) s).trace.map Prod.fst =
      s.trace.map Prod.fst ++ l.map (fun f => f.key)
  | [], s => by simp
  | f :: rest, s => by
    rw [List.foldl_cons, foldl_trace_keys root dlOk rest]
    obtain ⟨o, ho⟩ := @processFile_trace root dlOk s f
    rw [ho]; simp

theorem foldl_trace_length (root : String) (dlOk : String → Bool)
    (l : List ObjectRecord) (s : DLState) :
    (l.foldl (processFile root dlOk) s).trace.length =
      s.trace.length + l.length := by
  have h := congrArg List.length (foldl_trace_keys root dlOk l s)
  simpa using h

theorem processFile_mem_mono {root : String} {dlOk : String → Bool}
    (s : DLState) (f : ObjectRecord) :
    s.ledgerMem ⊆ (processFile root dlOk s f).ledgerMem := by
  by_cases h1 : f.key ∈ s.ledgerMem
  · rw [processFile_logged h1]
  by_cases h2 : localPath root f.key ∈ s.disk
  · rw [processFile_exists h1 h2]; exact Finset.subset_insert _ _
  by_cases h3 : dlOk f.key = true
  · rw [processFile_download h1 h2 h3]; exact Finset.subset_insert _ _
  · rw [processFile_failed h1 h2 (by simpa using h3)]

theorem foldl_mem_mono (root : String) (dlOk : String → Bool) :
    ∀ (l : List ObjectRecord) (s : DLState),
    s.ledgerMem ⊆ (l.foldl (processFile root dlOk) s).ledgerMem
  | [], _ => by simp
  | f :: rest, s => by
    rw [List.foldl_cons]
    exact (processFile_mem_mono s f).trans
      (foldl_mem_mono root dlOk rest _)

theorem processFile_failed_mono {root : String} {dlOk : String → Bool}
    (s : DLState) (f : ObjectRecord) :
    s.stats.failed ≤ (processFile root dlOk s f).stats.failed := by
  by_cases h1 : f.key ∈ s.ledgerMem
  · rw [processFile_logged h1]
  by_cases h2 : localPath root f.key ∈ s.disk
  · rw [processFile_exists h1 h2]
  by_cases h3 : dlOk f.key = true
  · rw [processFile_download h1 h2 h3]
  · rw [processFile_failed h1 h2 (by simpa using h3)]; simp

theorem foldl_failed_mono (root : String) (dlOk : String → Bool) :
    ∀ (l : List ObjectRecord) (s : DLState),
    s.stats.failed ≤ (l.foldl (processFile root dlOk) s).stats.failed
  | [], _ => le_refl _
  | f :: rest, s => by
    rw [List.foldl_cons]
    exact (processFile_failed_mono s f).trans
      (foldl_failed_mono root dlOk rest _)

theorem processFile_ledger_sync {root : String} {dlOk : String → Bool}
    {s : DLState} (f : ObjectRecord)
    (h : get_download_log s.ledgerDisk = s.ledgerMem) :
    get_download_log (processFile root dlOk s f).ledgerDisk =
      (processFile root dlOk s f).ledgerMem := by
  by_cases h1 : f.key ∈ s.ledgerMem
  · rw [processFile_logged h1]; exact h
  by_cases h2 : localPath root f.key ∈ s.disk
  · rw [processFile_exists h1 h2]; rfl
  by_cases h3 : dlOk f.key = true
  · rw [processFile_download h1 h2 h3]; rfl
  · rw [processFile_failed h1 h2 (by simpa using h3)]; exact h

theorem foldl_ledger_sync (root : String) (dlOk : String → Bool) :
    ∀ (l : List ObjectRecord) (s : DLState),
    get_download_log s.ledgerDisk = s.ledgerMem →
    get_download_log (l.foldl (processFile root dlOk) s).ledgerDisk =
      (l.foldl (processFile root dlOk) s).ledgerMem
  | [], _, h => h
  | f :: rest, s, h => by
    rw [List.foldl_cons]
    exact foldl_ledger_sync root dlOk rest _ (processFile_ledger_sync f h)

theorem processFile_key_mem {root : String} {dlOk : String → Bool}
    {s : DLState} {f : ObjectRecord}
    (h : (processFile root dlOk s f).stats.failed = s.stats.failed) :
    f.key ∈ (processFile root dlOk s f).ledgerMem := by
  by_cases h1 : f.key ∈ s.ledgerMem
  · rw [processFile_logged h1]; exact h1
  by_cases h2 : localPath root f.key ∈ s.disk
  · rw [processFile_exists h1 h2]; exact Finset.mem_insert_self _ _
  by_cases h3 : dlOk f.key = true
  · rw [processFile_download h1 h2 h3]; exact Finset.mem_insert_self _ _
  · rw [processFile_failed h1 h2 (by simpa using h3)] at h
    simp at h

theorem foldl_keys_mem (root : String) (dlOk : String → Bool) :
    ∀ (l : List ObjectRecord) (s : DLState),
    (l.foldl (processFile root dlOk) s).stats.failed = s.stats.failed →
    ∀ f ∈ l, f.key ∈ (l.foldl (processFile root dlOk) s).ledgerMem
  | [], _, _, f, hf => by simp at hf
  | g :: rest, s, h, f, hf => by
    rw [List.foldl_cons] at h ⊢
    have hg1 : s.stats.failed ≤ (processFile root dlOk s g).stats.failed :=
      processFile_failed_mono s g
    have hg2 := foldl_failed_mono root dlOk rest (processFile root dlOk s g)
    have hgeq : (processFile root dlOk s g).stats.failed = s.stats.failed := by
      omega
    rcases List.mem_cons.mp hf with hfg | hfr
    · subst hfg
      exact foldl_mem_mono root dlOk rest _ (processFile_key_mem hgeq)
    · exact foldl_keys_mem root dlOk rest _ (by omega) f hfr

theorem foldl_all_logged_stats (root : String) (dlOk : String → Bool) :
    ∀ (l : List ObjectRecord) (s : DLState),
    (∀ f ∈ l, f.key ∈ s.ledgerMem) →
    (l.foldl (processFile root dlOk) s).stats.downloaded =
      s.stats.downloaded ∧
    (l.foldl (processFile root dlOk) s).stats.skipped_logged =
      s.stats.skipped_logged + l.length
  | [], s, _ => ⟨rfl, rfl⟩
  | f :: rest, s, h => by
    rw [List.foldl_cons, processFile_logged (h f (List.mem_cons_self f rest))]
    have hrest := foldl_all_logged_stats root dlOk rest
      { s with
        stats := { s.stats with skipped_logged := s.stats.skipped_logged + 1 },
        trace := s.trace ++ [(f.key, Outcome.skipped_logged)] }
      (fun g hg => h g (List.mem_cons_of_mem f hg))
    constructor
    · exact hrest.1
    · rw [hrest.2]; simp; omega

theorem downloadedKeys_append_one (tr : List (String × Outcome))
    (k : String) (o : Outcome) :
    downloadedKeys (tr ++ [(k, o)]) =
      if o = Outcome.downloaded then insert k (downloadedKeys tr)
      else downloadedKeys tr := by
  by_cases ho : o = Outcome.downloaded
  · subst ho
    simp only [downloadedKeys, downloadedKeyList, List.filterMap_append,
      List.toFinset_append, if_true]
    simp
    rw [Finset.union_comm, ← Finset.insert_eq]
  · simp [downloadedKeys, downloadedKeyList, List.filterMap_append, ho]

/-- Invariant of the download loop started from a fresh ledger, on a
disk holding none of the candidate target paths: the on-disk ledger
file matches the in-memory set, which is exactly the set of keys
classified `downloaded`, the `downloaded` counter counts them, and the
disk holds a candidate path exactly when its key was downloaded. -/
def FreshInv (root : String) (disk0 : Finset String) (s : DLState) : Prop :=
  get_download_log s.ledgerDisk = s.ledgerMem ∧
  s.ledgerMem = downloadedKeys s.trace ∧
  s.stats.downloaded = s.ledgerMem.card ∧
  ∀ k : String, localPath root k ∈ s.disk ↔
    (localPath root k ∈ disk0 ∨ k ∈ s.ledgerMem)

theorem processFile_fresh {root : String} {dlOk : String → Bool}
    {disk0 : Finset String} {s : DLState} {f : ObjectRecord}
    (hf : localPath root f.key ∉ disk0) (hI : FreshInv root disk0 s) :
    FreshInv root disk0 (processFile root dlOk s f) := by
  obtain ⟨hsync, hmem, hcard, hdisk⟩ := hI
  have hnotdisk : f.key ∉ s.ledgerMem → localPath root f.key ∉ s.disk := by
    intro h1 hmem'
    rcases (hdisk f.key).mp hmem' with h | h
    · exact hf h
    · exact h1 h
  by_cases h1 : f.key ∈ s.ledgerMem
  · rw [processFile_logged h1]
    refine ⟨hsync, ?_, hcard, hdisk⟩
    rw [downloadedKeys_append_one]
    simpa using hmem
  by_cases h3 : dlOk f.key = true
  · rw [processFile_download h1 (hnotdisk h1) h3]
    refine ⟨rfl, ?_, ?_, ?_⟩
    · rw [downloadedKeys_append_one]
      simp [hmem]
    · simp [Finset.card_insert_of_not_mem h1, hcard]
    · intro k
      simp only [Finset.mem_insert]
      constructor
      · rintro (hk | hk)
        · exact Or.inr (Or.inl (localPath_inj hk))
        · rcases (hdisk k).mp hk with h | h
          · exact Or.inl h
          · exact Or.inr (Or.inr h)
      · rintro (hk | hk | hk)
        · exact Or.inr ((hdisk k).mpr (Or.inl hk))
        · subst hk; exact Or.inl rfl
        · exact Or.inr ((hdisk k).mpr (Or.inr hk))
  · rw [processFile_failed h1 (hnotdisk h1) (by simpa using h3)]
    refine ⟨hsync, ?_, hcard, hdisk⟩
    rw [downloadedKeys_append_one]
    simpa using hmem

theorem foldl_fresh (root : String) (dlOk : String → Bool)
    (disk0 : Finset String) :
    ∀ (l : List ObjectRecord) (s : DLState),
    (∀ f ∈ l, localPath root f.key ∉ disk0) →
    FreshInv root disk0 s →
    FreshInv root disk0 (l.foldl (processFile root dlOk) s)
  | [], _, _, hI => hI
  | f :: rest, s, h, hI => by
    rw [List.foldl_cons]
    exact foldl_fresh root dlOk disk0 rest _
      (fun g hg => h g (List.mem_cons_of_mem f hg))
      (processFile_fresh (h f (List.mem_cons_self f rest)) hI)

theorem lastChar_eq_none_iff {s : String} : lastChar s = none ↔ s = "" := by
  unfold lastChar
  rw [List.getLast?_eq_none_iff]
  constructor
  · intro h; exact String.ext h
  · intro h; subst h; rfl

theorem lastChar_some_of_ne {s : String} (h : s ≠ "") :
    ∃ c, lastChar s = some c := by
  cases hl : lastChar s with
  | none => exact absurd (lastChar_eq_none_iff.mp hl) h
  | some c => exact ⟨c, rfl⟩

theorem classifyIsDir_ok {r : ObjectRecord} (h : r.key ≠ "") :
    classifyIsDir r = Except.ok (isDirRecord r) := by
  obtain ⟨c, hc⟩ := lastChar_some_of_ne h
  simp [classifyIsDir, isDirRecord, hc]

theorem classifyIsDir_error {r : ObjectRecord} (h : r.key = "") :
    classifyIsDir r = Except.error () := by
  simp [classifyIsDir, lastChar_eq_none_iff.mpr h]

theorem selectRecords_ok_of_nonempty {w : Bool} :
    ∀ {objects : List ObjectRecord}, (∀ r ∈ objects, r.key ≠ "") →
    selectRecords w objects =
      Except.ok (objects.filter (fun r => isDirRecord r == w))
  | [], _ => rfl
  | r :: rest, h => by
    have hr := classifyIsDir_ok (h r (List.mem_cons_self r rest))
    have hrest := @selectRecords_ok_of_nonempty w rest
      (fun g hg => h g (List.mem_cons_of_mem r hg))
    by_cases hb : isDirRecord r = w
    · simp [selectRecords, hr, hrest, List.filter_cons, hb,
        Bind.bind, Except.bind, Pure.pure, Except.pure]
    · simp [selectRecords, hr, hrest, List.filter_cons, hb,
        Bind.bind, Except.bind, Pure.pure, Except.pure]

theorem selectRecords_error_of_empty {w : Bool} :
    ∀ {objects : List ObjectRecord}, (∃ r ∈ objects, r.key = "") →
    selectRecords w objects = Except.error ()
  | [], h => by simp at h
  | r :: rest, h => by
    by_cases hr : r.key = ""
    · simp [selectRecords, classifyIsDir_error hr, Bind.bind, Except.bind]
    · obtain ⟨g, hg, hge⟩ := h
      rcases List.mem_cons.mp hg with h1 | h1
      · exact absurd (h1 ▸ hge) hr
      · have hrest := @selectRecords_error_of_empty w rest ⟨g, h1, hge⟩
        simp [selectRecords, classifyIsDir_ok hr, hrest,
          Bind.bind, Except.bind]

theorem partitionRecords_ok_of_nonempty {objects : List ObjectRecord}
    (h : ∀ r ∈ objects, r.key ≠ "") :
    partitionRecords objects =
      Except.ok (objects.filter (fun r => !(isDirRecord r)),
                 objects.filter (fun r => isDirRecord r)) := by
  have hf := @selectRecords_ok_of_nonempty false objects h
  have hd := @selectRecords_ok_of_nonempty true objects h
  simp [partitionRecords, hf, hd, Bind.bind, Except.bind,
    Pure.pure, Except.pure]

theorem partitionRecords_error_of_empty {objects : List ObjectRecord}
    (h : ∃ r ∈ objects, r.key = "") :
    partitionRecords objects = Except.error () := by
  have hf := @selectRecords_error_of_empty false objects h
  simp [partitionRecords, hf, Bind.bind, Except.bind]

theorem mem_makedirsPaths_self (p : String) : p ∈ makedirsPaths p := by
  simp [makedirsPaths]

theorem subset_makedirs (fs : Finset String) (p : String) :
    fs ⊆ makedirs fs p :=
  Finset.subset_union_left

theorem mem_makedirs_of_mem_paths {q p : String} (fs : Finset String)
    (h : q ∈ makedirsPaths p) : q ∈ makedirs fs p :=
  Finset.mem_union_right _ (List.mem_toFinset.mpr h)

theorem makedirs_eq_self {fs : Finset String} {p : String}
    (h : ∀ q ∈ makedirsPaths p, q ∈ fs) : makedirs fs p = fs := by
  apply Finset.union_eq_left.mpr
  intro q hq
  exact h q (List.mem_toFinset.mp hq)

/-- The set of directories existing after `create_directories` runs its
loop over `dirs` starting from `fs`. -/
def createdDirs (root : String) (dirs : List ObjectRecord)
    (fs : Finset String) : Finset String :=
  dirs.foldl (fun a d => makedirs a (root ++ "/" ++ d.key)) fs

theorem create_directories_go_ok (root : String) (mkdirErr : String → Bool) :
    ∀ (dirs : List ObjectRecord) (fs : Finset String),
    (∀ d ∈ dirs, mkdirErr (root ++ "/" ++ d.key) = false) →
    create_directories_go root mkdirErr dirs fs =
      Except.ok (createdDirs root dirs fs)
  | [], fs, _ => rfl
  | d :: rest, fs, h => by
    have hd := h d (List.mem_cons_self d rest)
    have hrest := create_directories_go_ok root mkdirErr rest
      (makedirs fs (root ++ "/" ++ d.key))
      (fun g hg => h g (List.mem_cons_of_mem d hg))
    simp [create_directories_go, hd, hrest, createdDirs]

theorem createdDirs_mono (root : String) :
    ∀ (dirs : List ObjectRecord) (fs : Finset String),
    fs ⊆ createdDirs root dirs fs
  | [], _ => Finset.Subset.refl _
  | d :: rest, fs =>
    (subset_makedirs fs (root ++ "/" ++ d.key)).trans
      (createdDirs_mono root rest _)

theorem createdDirs_mem (root : String) :
    ∀ (dirs : List ObjectRecord) (fs : Finset String),
    ∀ d ∈ dirs, ∀ q ∈ makedirsPaths (root ++ "/" ++ d.key),
    q ∈ createdDirs root dirs fs
  | [], _, d, hd, _, _ => by simp at hd
  | d' :: rest, fs, d, hd, q, hq => by
    rcases List.mem_cons.mp hd with h1 | h1
    · subst h1
      exact createdDirs_mono root rest _
        (mem_makedirs_of_mem_paths fs hq)
    · exact createdDirs_mem root rest _ d h1 q hq

theorem createdDirs_eq_self (root : String) :
    ∀ (dirs : List ObjectRecord) (fs : Finset String),
    (∀ d ∈ dirs, ∀ q ∈ makedirsPaths (root ++ "/" ++ d.key), q ∈ fs) →
    createdDirs root dirs fs = fs
  | [], _, _ => rfl
  | d :: rest, fs, h => by
    have hd : makedirs fs (root ++ "/" ++ d.key) = fs :=
      makedirs_eq_self (h d (List.mem_cons_self d rest))
    have hrest := createdDirs_eq_self root rest fs
      (fun g hg => h g (List.mem_cons_of_mem d hg))
    simp only [createdDirs, List.foldl_cons, hd]
    exact hrest

/-- C1: for every file record processed by the download orchestrator's
loop body, exactly one classification is assigned (the trace grows by
exactly one entry); a key already in the in-memory ledger is classified
`skipped_logged` with no filesystem or network effect (the state is
otherwise untouched and the result is independent of the download
oracle); otherwise, if the target path exists on disk, the record is
classified `skipped_exists` and the key is added to the ledger;
otherwise, on download success, the key is added to the ledger and the
record is classified `downloaded`. -/
theorem C1_per_file_classification (root : String) (dlOk : String → Bool)
    (s : DLState) (f : ObjectRecord) :
    ((processFile root dlOk s f).trace.length = s.trace.length + 1) ∧
    (f.key ∈ s.ledgerMem →
      (processFile root dlOk s f =
        { s with
          stats :=
            { s.stats with skipped_logged := s.stats.skipped_logged + 1 },
          trace := s.trace ++ [(f.key, Outcome.skipped_logged)] }) ∧
      ∀ dlOk2 : String → Bool,
        processFile root dlOk s f = processFile root dlOk2 s f) ∧
    (f.key ∉ s.ledgerMem → localPath root f.key ∈ s.disk →
      processFile root dlOk s f =
        { s with
          ledgerMem := insert f.key s.ledgerMem,
          ledgerDisk := LedgerContent.valid (insert f.key s.ledgerMem),
          stats :=
            { s.stats with skipped_exists := s.stats.skipped_exists + 1 },
          trace := s.trace ++ [(f.key, Outcome.skipped_exists)] }) ∧
    (f.key ∉ s.ledgerMem → localPath root f.key ∉ s.disk →
      dlOk f.key = true →
      processFile root dlOk s f =
        { s with
          disk := insert (localPath root f.key) s.disk,
          ledgerMem := insert f.key s.ledgerMem,
          ledgerDisk := LedgerContent.valid (insert f.key s.ledgerMem),
          stats := { s.stats with downloaded := s.stats.downloaded + 1 },
          trace := s.trace ++ [(f.key, Outcome.downloaded)] }) := by
  refine ⟨?_, ?_, ?_, ?_⟩
  · obtain ⟨o, ho⟩ := @processFile_trace root dlOk s f
    rw [ho]; simp
  · intro h1
    exact ⟨processFile_logged h1,
      fun dlOk2 => (processFile_logged h1).trans
        (processFile_logged h1).symm⟩
  · intro h1 h2
    exact processFile_exists h1 h2
  · intro h1 h2 h3
    exact processFile_download h1 h2 h3

theorem C1_witness :
    processFile "r" (fun _ => true)
      ⟨∅, LedgerContent.missing, {"a"}, ⟨0, 0, 0, 0⟩, []⟩ ⟨"a"⟩ =
    ⟨∅, LedgerContent.missing, {"a"}, ⟨0, 0, 1, 0⟩,
      [("a", Outcome.skipped_logged)]⟩ :=
  ((C1_per_file_classification "r" (fun _ => true)
    ⟨∅, LedgerContent.missing, {"a"}, ⟨0, 0, 0, 0⟩, []⟩ ⟨"a"⟩).2.1
    (by decide)).1

/-- C2: a file record whose download attempt fails is classified
`failed`; its key is not added to the ledger (in memory or on disk), no
file exists at the target path afterwards (the partially written file
is removed), and the loop continues: all subsequent records are still
processed, so a single failure never aborts the run. -/
theorem C2_download_failure (root : String) (dlOk : String → Bool)
    (s : DLState) (f : ObjectRecord) (h1 : f.key ∉ s.ledgerMem)
    (h2 : localPath root f.key ∉ s.disk) (h3 : dlOk f.key = false) :
    (processFile root dlOk s f).trace =
      s.trace ++ [(f.key, Outcome.failed)] ∧
    (processFile root dlOk s f).stats =
      { s.stats with failed := s.stats.failed + 1 } ∧
    (processFile root dlOk s f).ledgerMem = s.ledgerMem ∧
    (processFile root dlOk s f).ledgerDisk = s.ledgerDisk ∧
    (processFile root dlOk s f).disk = s.disk ∧
    localPath root f.key ∉ (processFile root dlOk s f).disk ∧
    ∀ rest : List ObjectRecord,
      (rest.foldl (processFile root dlOk)
        (processFile root dlOk s f)).trace.length =
      s.trace.length + 1 + rest.length := by
  rw [processFile_failed h1 h2 h3]
  refine ⟨rfl, rfl, rfl, rfl, rfl, h2, ?_⟩
  intro rest
  rw [foldl_trace_length]
  simp

theorem C2_witness :
    (processFile "r" (fun _ => false)
      ⟨∅, LedgerContent.missing, ∅, ⟨0, 0, 0, 0⟩, []⟩ ⟨"a"⟩).trace =
    [("a", Outcome.failed)] :=
  (C2_download_failure "r" (fun _ => false)
    ⟨∅, LedgerContent.missing, ∅, ⟨0, 0, 0, 0⟩, []⟩ ⟨"a"⟩
    (by decide) (by decide) rfl).1

/-- C5: the ledger loader returns the key set stored under
`downloaded_files` when the file is present and parses; on a read or
parse failure it warns and returns the empty set (it is a total
function, so corruption is never fatal); a missing file also yields the
empty set, without a warning. -/
theorem C5_load_recovery :
    (∀ keys : Finset String,
      get_download_log (LedgerContent.valid keys) = keys) ∧
    get_download_log LedgerContent.corrupt = ∅ ∧
    download_log_warns LedgerContent.corrupt = true ∧
    get_download_log LedgerContent.missing = ∅ ∧
    download_log_warns LedgerContent.missing = false :=
  ⟨fun _ => rfl, rfl, rfl, rfl, rfl⟩

/-- C9: on an uninterrupted run the four statistics counters sum to the
number of file records given, and the trace records exactly one
classification per file record. -/
theorem C9_stats_total (root : String) (dlOk : String → Bool)
    (files : List ObjectRecord) (disk0 : Finset String)
    (ledger0 : LedgerContent) :
    (download_objects root dlOk files disk0 ledger0).stats.downloaded +
      (download_objects root dlOk files disk0 ledger0).stats.skipped_logged +
      (download_objects root dlOk files disk0 ledger0).stats.skipped_exists +
      (download_objects root dlOk files disk0 ledger0).stats.failed =
      files.length ∧
    (download_objects root dlOk files disk0 ledger0).trace.length =
      files.length := by
  constructor
  · have h := foldl_statsTotal root dlOk files
      { disk := disk0, ledgerDisk := ledger0,
        ledgerMem := get_download_log ledger0,
        stats := { downloaded := 0, skipped_exists := 0,
                   skipped_logged := 0, failed := 0 },
        trace := [] }
    simp only [statsTotal] at h
    simp only [download_objects]
    omega
  · have h := foldl_trace_length root dlOk files
      { disk := disk0, ledgerDisk := ledger0,
        ledgerMem := get_download_log ledger0,
        stats := { downloaded := 0, skipped_exists := 0,
                   skipped_logged := 0, failed := 0 },
        trace := [] }
    simp only [download_objects]
    simpa using h

/-- C10: the files/directories partition inspects the last character of
each key, so it is defined exactly on listings whose keys are all
nonempty: a listing containing an empty-key record makes the
partitioning step fail (the Python subscript `Key[-1]` raises
`IndexError`) instead of classifying the record. -/
theorem C10_empty_key (objects : List ObjectRecord) :
    ((∃ r ∈ objects, r.key = "") →
      partitionRecords objects = Except.error ()) ∧
    ((∀ r ∈ objects, r.key ≠ "") →
      partitionRecords objects =
        Except.ok (objects.filter (fun r => !(isDirRecord r)),
                   objects.filter (fun r => isDirRecord r))) :=
  ⟨partitionRecords_error_of_empty, partitionRecords_ok_of_nonempty⟩

theorem C10_witness :
    partitionRecords [(⟨""⟩ : ObjectRecord)] = Except.error () :=
  (C10_empty_key [(⟨""⟩ : ObjectRecord)]).1 (by decide)

/-- C3: `add_to_download_log` inserts the key into the in-memory set
and immediately persists the full set to the ledger file; consequently,
for a run started from a fresh ledger on a disk holding none of the
target paths and stopped between iterations (after any prefix of the
file records), loading the on-disk ledger yields exactly the keys
reported `downloaded`, whose number is the `downloaded` counter. -/
theorem C3_ledger_durability (root : String) (dlOk : String → Bool)
    (files : List ObjectRecord) (disk0 : Finset String) (n : Nat)
    (hfresh : ∀ f ∈ files, localPath root f.key ∉ disk0) :
    (∀ (k : String) (mem : Finset String),
      add_to_download_log k mem =
        (insert k mem, LedgerContent.valid (insert k mem))) ∧
    get_download_log
        (download_objects root dlOk (files.take n) disk0
          LedgerContent.missing).ledgerDisk =
      downloadedKeys
        (download_objects root dlOk (files.take n) disk0
          LedgerContent.missing).trace ∧
    (download_objects root dlOk (files.take n) disk0
        LedgerContent.missing).stats.downloaded =
      (downloadedKeys
        (download_objects root dlOk (files.take n) disk0
          LedgerContent.missing).trace).card := by
  have hI : FreshInv root disk0
      { disk := disk0, ledgerDisk := LedgerContent.missing,
        ledgerMem := get_download_log LedgerContent.missing,
        stats := { downloaded := 0, skipped_exists := 0,
                   skipped_logged := 0, failed := 0 },
        trace := [] } := by
    refine ⟨rfl, rfl, rfl, ?_⟩
    intro k
    simp [get_download_log]
  have h := foldl_fresh root dlOk disk0 (files.take n)
    { disk := disk0, ledgerDisk := LedgerContent.missing,
      ledgerMem := get_download_log LedgerContent.missing,
      stats := { downloaded := 0, skipped_exists := 0,
                 skipped_logged := 0, failed := 0 },
      trace := [] }
    (fun f hf => hfresh f (List.take_subset n files hf)) hI
  obtain ⟨hsync, hmem, hcard, _⟩ := h
  refine ⟨fun k mem => rfl, ?_, ?_⟩
  · simp only [download_objects]
    rw [hsync, hmem]
  · simp only [download_objects]
    rw [hcard, hmem]

theorem C3_witness :
    get_download_log
      (download_objects "r" (fun _ => true)
        ([(⟨"a"⟩ : ObjectRecord), ⟨"b"⟩].take 1) ∅
        LedgerContent.missing).ledgerDisk =
    downloadedKeys
      (download_objects "r" (fun _ => true)
        ([(⟨"a"⟩ : ObjectRecord), ⟨"b"⟩].take 1) ∅
        LedgerContent.missing).trace :=
  (C3_ledger_durability "r" (fun _ => true) [⟨"a"⟩, ⟨"b"⟩] ∅ 1
    (by decide)).2.1

/-- C4 (amended): if the first run classified no record as `failed`,
then a second run of the pipeline over the same partitioned file
records, against the filesystem and ledger the first run left behind,
classifies every record `skipped_logged`: it reports `downloaded = 0`
and `skipped_logged` equal to the number of file records — whatever the
second run's download oracle. -/
theorem C4_second_run (root : String) (dlOk1 dlOk2 : String → Bool)
    (objects files dirs : List ObjectRecord) (disk0 : Finset String)
    (ledger0 : LedgerContent)
    (hpart : partitionRecords objects = Except.ok (files, dirs))
    (h1 : (download_objects root dlOk1 files disk0 ledger0).stats.failed
      = 0) :
    (download_objects root dlOk2 files
        (download_objects root dlOk1 files disk0 ledger0).disk
        (download_objects root dlOk1 files disk0
          ledger0).ledgerDisk).stats.downloaded = 0 ∧
    (download_objects root dlOk2 files
        (download_objects root dlOk1 files disk0 ledger0).disk
        (download_objects root dlOk1 files disk0
          ledger0).ledgerDisk).stats.skipped_logged = files.length := by
  have hkeys : ∀ f ∈ files,
      f.key ∈ (download_objects root dlOk1 files disk0
        ledger0).ledgerMem := by
    apply foldl_keys_mem root dlOk1 files
    exact h1
  have hsync : get_download_log
      (download_objects root dlOk1 files disk0 ledger0).ledgerDisk =
      (download_objects root dlOk1 files disk0 ledger0).ledgerMem := by
    apply foldl_ledger_sync root dlOk1 files
    rfl
  have h := foldl_all_logged_stats root dlOk2 files
    { disk := (download_objects root dlOk1 files disk0 ledger0).disk,
      ledgerDisk :=
        (download_objects root dlOk1 files disk0 ledger0).ledgerDisk,
      ledgerMem := get_download_log
        (download_objects root dlOk1 files disk0 ledger0).ledgerDisk,
      stats := { downloaded := 0, skipped_exists := 0,
                 skipped_logged := 0, failed := 0 },
      trace := [] }
    (by
      intro f hf
      simp only [hsync]
      exact hkeys f hf)
  simp only [download_objects] at h ⊢
  exact ⟨h.1, by rw [h.2, Nat.zero_add]⟩

theorem C4_witness :
    (download_objects "r" (fun _ => true) [(⟨"a"⟩ : ObjectRecord)]
        (download_objects "r" (fun _ => true) [(⟨"a"⟩ : ObjectRecord)] ∅
          LedgerContent.missing).disk
        (download_objects "r" (fun _ => true) [(⟨"a"⟩ : ObjectRecord)] ∅
          LedgerContent.missing).ledgerDisk).stats.downloaded = 0 :=
  (C4_second_run "r" (fun _ => true) (fun _ => true) [⟨"a"⟩] [⟨"a"⟩] []
    ∅ LedgerContent.missing rfl (by decide)).1

/-- C4 counterexample: with one file record whose download fails in
both runs (an unchanged bucket, filesystem and ledger), the second run
reports `skipped_logged = 0`, not `skipped_logged = total files = 1`,
so the claim does not hold without excluding failed records. -/
theorem C4_counterexample :
    partitionRecords [(⟨"a"⟩ : ObjectRecord)] =
      Except.ok ([(⟨"a"⟩ : ObjectRecord)], []) ∧
    ¬((download_objects "r" (fun _ => false) [(⟨"a"⟩ : ObjectRecord)]
        (download_objects "r" (fun _ => false) [(⟨"a"⟩ : ObjectRecord)] ∅
          LedgerContent.missing).disk
        (download_objects "r" (fun _ => false) [(⟨"a"⟩ : ObjectRecord)] ∅
          LedgerContent.missing).ledgerDisk).stats.downloaded = 0 ∧
      (download_objects "r" (fun _ => false) [(⟨"a"⟩ : ObjectRecord)]
        (download_objects "r" (fun _ => false) [(⟨"a"⟩ : ObjectRecord)] ∅
          LedgerContent.missing).disk
        (download_objects "r" (fun _ => false) [(⟨"a"⟩ : ObjectRecord)] ∅
          LedgerContent.missing).ledgerDisk).stats.skipped_logged =
        [(⟨"a"⟩ : ObjectRecord)].length) := by
  refine ⟨rfl, ?_⟩
  intro h
  have h2 := h.2
  revert h2
  decide

/-- A page of 1000 distinct records for exercising the pagination
claim. -/
def page1000 (tag : String) (trunc : Bool) : Page :=
  ⟨(List.range 1000).map (fun i => ⟨tag ++ toString i⟩), trunc⟩

/-- C6: the lister follows continuation tokens until the service stops
reporting truncation and returns the concatenation of the pages in
listing order; for three pages of 1000 records each (the first two
truncated) the combined listing is exactly their 3000 records — every
page record is present (no omissions) and nothing else, with the length
equal to the sum of the page sizes (no duplication by the lister); a
transport failure on any request propagates to the caller. -/
theorem C6_pagination (p1 p2 p3 : Page)
    (h1 : p1.isTruncated = true) (h2 : p2.isTruncated = true)
    (h3 : p3.isTruncated = false)
    (l1 : p1.contents.length = 1000) (l2 : p2.contents.length = 1000)
    (l3 : p3.contents.length = 1000) :
    list_objects_in_bucket
        [ListResp.ok p1, ListResp.ok p2, ListResp.ok p3] =
      Except.ok (p1.contents ++ p2.contents ++ p3.contents) ∧
    (p1.contents ++ p2.contents ++ p3.contents).length = 3000 ∧
    (∀ r : ObjectRecord,
      r ∈ p1.contents ++ p2.contents ++ p3.contents ↔
      (r ∈ p1.contents ∨ r ∈ p2.contents ∨ r ∈ p3.contents)) ∧
    (∀ rest : List ListResp,
      list_objects_in_bucket (ListResp.transportError :: rest) =
        Except.error ()) ∧
    (∀ rest : List ListResp,
      list_objects_in_bucket
          (ListResp.ok p1 :: ListResp.transportError :: rest) =
        Except.error ()) := by
  refine ⟨?_, ?_, ?_, ?_, ?_⟩
  · simp [list_objects_in_bucket, list_objects_loop, h1, h2, h3]
  · simp [l1, l2, l3]
  · intro r
    simp [List.mem_append, or_assoc]
  · intro rest
    rfl
  · intro rest
    simp [list_objects_in_bucket, list_objects_loop, h1]

theorem C6_witness :
    list_objects_in_bucket
        [ListResp.ok (page1000 "a" true), ListResp.ok (page1000 "b" true),
         ListResp.ok (page1000 "c" false)] =
      Except.ok ((page1000 "a" true).contents ++
        (page1000 "b" true).contents ++ (page1000 "c" false).contents) :=
  (C6_pagination (page1000 "a" true) (page1000 "b" true)
    (page1000 "c" false) rfl rfl rfl (by simp [page1000])
    (by simp [page1000]) (by simp [page1000])).1

/-- C7: when the partition succeeds, the directory markers are exactly
the records whose key ends in the separator and the files exactly the
others, so the reported total equals the number of non-marker records;
the download orchestrator's trace covers exactly the file records'
keys, so a marker key never appears in any statistics bucket. -/
theorem C7_directory_markers (root : String) (dlOk : String → Bool)
    (objects files dirs : List ObjectRecord) (disk0 : Finset String)
    (ledger0 : LedgerContent)
    (hp : partitionRecords objects = Except.ok (files, dirs)) :
    files = objects.filter (fun r => !(isDirRecord r)) ∧
    dirs = objects.filter (fun r => isDirRecord r) ∧
    files.length = objects.countP (fun r => !(isDirRecord r)) ∧
    (∀ r ∈ objects, isDirRecord r = true → r ∈ dirs ∧ r ∉ files) ∧
    (download_objects root dlOk files disk0 ledger0).trace.map Prod.fst =
      files.map (fun f => f.key) ∧
    (∀ r : ObjectRecord, isDirRecord r = true →
      r.key ∉
        (download_objects root dlOk files disk0
          ledger0).trace.map Prod.fst) := by
  have hne : ∀ r ∈ objects, r.key ≠ "" := by
    intro r hr hempty
    rw [partitionRecords_error_of_empty ⟨r, hr, hempty⟩] at hp
    exact Except.noConfusion hp
  have hok := partitionRecords_ok_of_nonempty hne
  rw [hok] at hp
  have hpair := Except.ok.inj hp
  have hfiles : files = objects.filter (fun r => !(isDirRecord r)) :=
    (congrArg Prod.fst hpair).symm
  have hdirs : dirs = objects.filter (fun r => isDirRecord r) :=
    (congrArg Prod.snd hpair).symm
  have htrace :
      (download_objects root dlOk files disk0 ledger0).trace.map
        Prod.fst = files.map (fun f => f.key) := by
    simp only [download_objects]
    rw [foldl_trace_keys]
    simp
  refine ⟨hfiles, hdirs, ?_, ?_, htrace, ?_⟩
  · rw [hfiles]
    exact (List.countP_eq_length_filter _ _).symm
  · intro r hr hmark
    constructor
    · rw [hdirs]
      exact List.mem_filter.mpr ⟨hr, hmark⟩
    · rw [hfiles]
      intro hmem
      have := (List.mem_filter.mp hmem).2
      rw [hmark] at this
      simp at this
  · intro r hmark hmem
    rw [htrace] at hmem
    obtain ⟨f, hf, hfk⟩ := List.mem_map.mp hmem
    have hff := (List.mem_filter.mp (hfiles ▸ hf)).2
    have : isDirRecord f = isDirRecord r := by
      simp only [isDirRecord, lastChar, hfk]
    rw [this, hmark] at hff
    simp at hff

theorem C7_witness :
    [(⟨"a"⟩ : ObjectRecord)] =
      [(⟨"d/"⟩ : ObjectRecord), ⟨"a"⟩].filter
        (fun r => !(isDirRecord r)) :=
  (C7_directory_markers "r" (fun _ => true) [⟨"d/"⟩, ⟨"a"⟩] [⟨"a"⟩]
    [⟨"d/"⟩] ∅ LedgerContent.missing rfl).1

/-- C8: with no filesystem error, `create_directories` succeeds and the
resulting directory set contains the export root, `root/Key` for every
directory marker, and every intermediate segment of those paths; the
operation is idempotent (running it again over the resulting set
succeeds and changes nothing); and a filesystem error on the root or on
the first failing marker path propagates as an error, aborting the
run. -/
theorem C8_create_directories (root : String) (mkdirErr : String → Bool)
    (dirs : List ObjectRecord) (fs : Finset String)
    (hroot : mkdirErr root = false)
    (hok : ∀ d ∈ dirs, mkdirErr (root ++ "/" ++ d.key) = false) :
    create_directories dirs root mkdirErr fs =
      Except.ok (createdDirs root dirs (makedirs fs root)) ∧
    root ∈ createdDirs root dirs (makedirs fs root) ∧
    (∀ d ∈ dirs,
      root ++ "/" ++ d.key ∈ createdDirs root dirs (makedirs fs root) ∧
      ∀ q ∈ makedirsPaths (root ++ "/" ++ d.key),
        q ∈ createdDirs root dirs (makedirs fs root)) ∧
    create_directories dirs root mkdirErr
        (createdDirs root dirs (makedirs fs root)) =
      Except.ok (createdDirs root dirs (makedirs fs root)) ∧
    (∀ err2 : String → Bool, err2 root = true →
      create_directories dirs root err2 fs = Except.error ()) ∧
    (∀ (err2 : String → Bool) (d : ObjectRecord)
      (rest : List ObjectRecord),
      err2 root = false → err2 (root ++ "/" ++ d.key) = true →
      create_directories (d :: rest) root err2 fs = Except.error ()) := by
  have hmem : ∀ d ∈ dirs,
      ∀ q ∈ makedirsPaths (root ++ "/" ++ d.key),
      q ∈ createdDirs root dirs (makedirs fs root) :=
    fun d hd q hq => createdDirs_mem root dirs (makedirs fs root) d hd q hq
  refine ⟨?_, ?_, ?_, ?_, ?_, ?_⟩
  · simp only [create_directories, hroot, Bool.false_eq_true, if_false]
    exact create_directories_go_ok root mkdirErr dirs (makedirs fs root) hok
  · exact createdDirs_mono root dirs (makedirs fs root)
      (mem_makedirs_of_mem_paths fs (mem_makedirsPaths_self root))
  · intro d hd
    exact ⟨hmem d hd _ (mem_makedirsPaths_self _), hmem d hd⟩
  · have hroot_sub : makedirs (createdDirs root dirs (makedirs fs root))
        root = createdDirs root dirs (makedirs fs root) := by
      apply makedirs_eq_self
      intro q hq
      exact createdDirs_mono root dirs (makedirs fs root)
        (mem_makedirs_of_mem_paths fs hq)
    simp only [create_directories, hroot, Bool.false_eq_true, if_false]
    rw [create_directories_go_ok root mkdirErr dirs _ hok, hroot_sub,
      createdDirs_eq_self root dirs _ hmem]
  · intro err2 h2
    simp [create_directories, h2]
  · intro err2 d rest h2 h3
    simp [create_directories, create_directories_go, h2, h3]

theorem C8_witness :
    create_directories [(⟨"d/"⟩ : ObjectRecord)] "r" (fun _ => false) ∅ =
      Except.ok (createdDirs "r" [(⟨"d/"⟩ : ObjectRecord)]
        (makedirs ∅ "r")) :=
  (C8_create_directories "r" (fun _ => false) [⟨"d/"⟩] ∅ rfl
    (by simp)).1

end DoSpacesExport
